import Mathlib

set_option maxRecDepth 4000

/-!
Verification development for the xmlutil XML data-binding library.

The Go source is shallowly embedded: reflection kinds become an inductive
universe of types and values, the two registry maps become association
lists with overwrite-on-insert semantics, the token stream of the
underlying xml parser becomes a list of tokens followed by a terminal
read error, and the recursive decoder is given explicit fuel (the Go
loops have no fuel; every theorem that needs a general input quantifies
over sufficient fuel).  Error returns become an error component of each
result; a Go runtime panic is modelled as a distinguished outcome.
-/

namespace Xmlutil

/-- xml.Name: a (namespace URI, local name) pair. -/
structure XName where
  space : String
  loc : String
deriving DecidableEq

/-- xml.Attr: a qualified name with a literal string value. -/
structure XAttr where
  name : XName
  value : String
deriving DecidableEq

/-- fieldFlags: the fAttr / fInterface / fOmitEmpty bits of fieldInfo
(the fElement bit is declared in the source but never set or read). -/
structure FieldFlags where
  attr : Bool
  iface : Bool
  omitEmpty : Bool
deriving DecidableEq

/-- fieldInfo: index of the field in its struct, resolved name, flags. -/
structure FieldInfo where
  index : Nat
  name : XName
  flags : FieldFlags
deriving DecidableEq

/-- typeInfo: registered or derived metadata of one type. -/
structure TypeInfo where
  name : XName
  attrs : List XAttr
  fields : List FieldInfo
deriving DecidableEq

/- The reflect.Type universe used by the claims: scalar kinds, byte
slices, pointers, interfaces, slices, maps (standing for every kind with
no leaf encoding) and struct types carrying their field declarations.
A GoField is one declared struct field: Go name, xml tag string,
visibility (PkgPath empty), anonymity, declared type. -/
mutual
inductive GoType where
  | intT : GoType
  | stringT : GoType
  | boolT : GoType
  | bytesT : GoType
  | mapT : GoType
  | invalidT : GoType
  | ifaceT : GoType
  | ptrT : GoType → GoType
  | sliceT : GoType → GoType
  | structT : String → List GoField → GoType

inductive GoField where
  | mk : String → String → Bool → Bool → GoType → GoField
end

def GoField.fname : GoField → String
  | .mk n _ _ _ _ => n

def GoField.tag : GoField → String
  | .mk _ t _ _ _ => t

def GoField.exported : GoField → Bool
  | .mk _ _ e _ _ => e

def GoField.anonymous : GoField → Bool
  | .mk _ _ _ a _ => a

def GoField.ty : GoField → GoType
  | .mk _ _ _ _ t => t

/- Structural (boolean) equality on types, mirroring run-time type
identity of reflect.Type, used as the key equality of the type map. -/
mutual
def tyEq : GoType → GoType → Bool
  | .intT, .intT => true
  | .stringT, .stringT => true
  | .boolT, .boolT => true
  | .bytesT, .bytesT => true
  | .mapT, .mapT => true
  | .invalidT, .invalidT => true
  | .ifaceT, .ifaceT => true
  | .ptrT a, .ptrT b => tyEq a b
  | .sliceT a, .sliceT b => tyEq a b
  | .structT n fs, .structT m gs => n == m && fieldsEq fs gs
  | _, _ => false

def fieldEq : GoField → GoField → Bool
  | .mk n t e a ty, .mk n2 t2 e2 a2 ty2 =>
    n == n2 && t == t2 && e == e2 && a == a2 && tyEq ty ty2

def fieldsEq : List GoField → List GoField → Bool
  | [], [] => true
  | f :: fs, g :: gs => fieldEq f g && fieldsEq fs gs
  | _, _ => false
end

/-- reflect.Type.Name(): named struct types and the predeclared scalar
types have names; pointer, slice, map, interface and byte-slice types in
this universe are unnamed. -/
def typName : GoType → String
  | .intT => "int"
  | .stringT => "string"
  | .boolT => "bool"
  | .structT n _ => n
  | _ => ""

/-- A reflect.Value of the modelled universe.  vinvalid is the invalid
zero reflect.Value.  A nil pointer and a nil interface are explicit
constructors; a non-nil interface carries the dynamic type. -/
inductive GoVal where
  | vinvalid : GoVal
  | vint : Int → GoVal
  | vstr : String → GoVal
  | vbool : Bool → GoVal
  | vbytes : String → GoVal
  | vmap : Nat → GoVal
  | vptrNil : GoType → GoVal
  | vptrSome : GoType → GoVal → GoVal
  | vifaceNil : GoVal
  | vifaceV : GoType → GoVal → GoVal
  | vslice : GoType → Nat → List GoVal → GoVal
  | vstruct : GoType → List GoVal → GoVal

/-- reflect.Value.Type() of a valid value. -/
def valType : GoVal → GoType
  | .vinvalid => .invalidT
  | .vint _ => .intT
  | .vstr _ => .stringT
  | .vbool _ => .boolT
  | .vbytes _ => .bytesT
  | .vmap _ => .mapT
  | .vptrNil t => .ptrT t
  | .vptrSome t _ => .ptrT t
  | .vifaceNil => .ifaceT
  | .vifaceV _ _ => .ifaceT
  | .vslice t _ _ => .sliceT t
  | .vstruct t _ => t

/- The zero value of a type (what reflect.New and reflect.MakeSlice
produce). -/
mutual
def zeroVal : GoType → GoVal
  | .intT => .vint 0
  | .stringT => .vstr ""
  | .boolT => .vbool false
  | .bytesT => .vbytes ""
  | .mapT => .vmap 0
  | .invalidT => .vinvalid
  | .ifaceT => .vifaceNil
  | .ptrT t => .vptrNil t
  | .sliceT t => .vslice t 0 []
  | .structT n fs => .vstruct (.structT n fs) (zeroVals fs)

def zeroVals : List GoField → List GoVal
  | [] => []
  | .mk _ _ _ _ t :: fs => zeroVal t :: zeroVals fs
end

/-- val.Field(i) on values of struct kind (the only callers index
struct values). -/
def getFieldVal (fvs : List GoVal) (i : Nat) : GoVal :=
  fvs.getD i .vinvalid

/-- val.Field(i) on a GoVal. -/
def getField (v : GoVal) (i : Nat) : GoVal :=
  match v with
  | .vstruct _ fvs => getFieldVal fvs i
  | _ => .vinvalid

/- ---------------------------------------------------------------------
The XmlUtil state: the type map and the two namespace maps.  Go maps are
modelled as association lists whose insert overwrites the previous
binding of the key; the reader/writer locks guard mutation only and have
no observable effect on the sequential semantics modelled here.
--------------------------------------------------------------------- -/

structure XmlUtil where
  typeMap : List (GoType × TypeInfo)
  nsPrefixMap : List (String × String)
  nsUriMap : List (String × String)

/-- Go map lookup on a string-keyed map: the zero value "" when the key
is absent. -/
def lookupD (m : List (String × String)) (k : String) : String :=
  match m.find? (fun p => p.1 == k) with
  | some p => p.2
  | none => ""

/-- Go map insert: the new binding replaces any previous binding. -/
def insertStr (m : List (String × String)) (k v : String) :
    List (String × String) :=
  (k, v) :: m.filter (fun p => !(p.1 == k))

/-- Type map lookup keyed by run-time type identity. -/
def lookupTy (m : List (GoType × TypeInfo)) (t : GoType) : Option TypeInfo :=
  (m.find? (fun p => tyEq p.1 t)).map (fun p => p.2)

/-- Type map insert (overwrite). -/
def insertTy (m : List (GoType × TypeInfo)) (t : GoType) (ti : TypeInfo) :
    List (GoType × TypeInfo) :=
  (t, ti) :: m.filter (fun p => !(tyEq p.1 t))

/-- NewXmlUtil: empty type map; both namespace maps are seeded with the
xmlns-to-xmlns pair. -/
def NewXmlUtil : XmlUtil :=
  { typeMap := []
    nsPrefixMap := [("xmlns", "xmlns")]
    nsUriMap := [("xmlns", "xmlns")] }

/-- RegisterNamespace(uri, prefix): inserts uri-to-prefix into
nsPrefixMap and prefix-to-uri into nsUriMap. -/
def RegisterNamespace (x : XmlUtil) (uri pfx : String) : XmlUtil :=
  { x with
    nsPrefixMap := insertStr x.nsPrefixMap uri pfx
    nsUriMap := insertStr x.nsUriMap pfx uri }

/-- lookupPrefix(uri). -/
def lookupPrefixOf (x : XmlUtil) (uri : String) : String :=
  lookupD x.nsPrefixMap uri

/-- lookupNamespaceUri(prefix). -/
def lookupNamespaceUri (x : XmlUtil) (pfx : String) : String :=
  lookupD x.nsUriMap pfx

/-- strings.Split with a one-character separator, over character
lists (an empty input yields one empty piece, as in Go). -/
def splitChar (sep : Char) : List Char → List (List Char)
  | [] => [[]]
  | c :: cs =>
    match splitChar sep cs with
    | r :: rs => if c = sep then [] :: r :: rs else (c :: r) :: rs
    | [] => [[]]

/-- strings.Index with a one-character pattern: the text before and
after the first occurrence, or none. -/
def splitFirst (sep : Char) : List Char → Option (List Char × List Char)
  | [] => none
  | c :: cs =>
    if c = sep then some ([], cs)
    else
      match splitFirst sep cs with
      | some (a, b) => some (c :: a, b)
      | none => none

/-- The flag tokens after the first comma of a field tag: "attr" sets
fAttr, "omitempty" sets fOmitEmpty, anything else is ignored. -/
def applyTagFlags (flags : FieldFlags) : List String → FieldFlags
  | [] => flags
  | "attr" :: rest => applyTagFlags { flags with attr := true } rest
  | "omitempty" :: rest => applyTagFlags { flags with omitEmpty := true } rest
  | _ :: rest => applyTagFlags flags rest

/-- One iteration of the getFields loop, producing the fieldInfo of the
field at struct index i, given the namespace table for prefix
resolution.  Returns none when the field is skipped (unexported, or
anonymous with a first byte above the byte value of Z). -/
def fieldInfoOf (x : XmlUtil) (i : Nat) (f : GoField) : Option FieldInfo :=
  if f.exported = false then none
  else if f.anonymous && (match f.fname.data with
                          | c :: _ => c.toNat > 90
                          | [] => false) then none
  else
    let tokens := (splitChar ',' f.tag.data).map String.mk
    let tag := tokens.headD ""
    let nm : XName :=
      match splitFirst ':' tag.data with
      | some (pfx, rest) =>
        { space := lookupNamespaceUri x (String.mk pfx), loc := String.mk rest }
      | none => { space := "", loc := tag }
    let nm := if nm.loc = "" then { nm with loc := f.fname } else nm
    let flags := applyTagFlags ⟨false, false, false⟩ (tokens.drop 1)
    let elemTy := match f.ty with
                  | .sliceT e => e
                  | t => t
    let flags := match elemTy with
                 | .ifaceT => { flags with iface := true }
                 | _ => flags
    some { index := i, name := nm, flags := flags }

/-- getFields: walk the declared fields in order, keeping the struct
index of every field (skipped fields still advance the index, exactly
as the Go loop variable does). -/
def getFieldsFrom (x : XmlUtil) : Nat → List GoField → List FieldInfo
  | _, [] => []
  | i, f :: fs =>
    match fieldInfoOf x i f with
    | some fi => fi :: getFieldsFrom x (i + 1) fs
    | none => getFieldsFrom x (i + 1) fs

def getFields (x : XmlUtil) (fs : List GoField) : List FieldInfo :=
  getFieldsFrom x 0 fs

/-- The underlying type after following pointer indirection, registerType
recursion target.  (The Go code also follows interface kinds here, but
reflect.Type.Elem is undefined on interface types and no caller reaches
that corner, so the model follows pointers only.) -/
def underlying : GoType → GoType
  | .ptrT t => underlying t
  | t => t

/-- The typeInfo registerType derives: name defaulting to the type name,
the supplied fixed attributes, and derived fields for struct kinds. -/
def deriveTypeInfo (x : XmlUtil) (t : GoType) (name : XName)
    (attrs : List XAttr) : TypeInfo :=
  let t := underlying t
  let name := if name.loc = "" then { name with loc := typName t } else name
  { name := name
    attrs := attrs
    fields := match t with
              | .structT _ fs => getFields x fs
              | _ => [] }

/-- registerType: derive and store the typeInfo under the underlying
type.  (The source returns a never-non-nil error alongside.) -/
def registerType (x : XmlUtil) (t : GoType) (name : XName)
    (attrs : List XAttr) : XmlUtil :=
  { x with typeMap := insertTy x.typeMap (underlying t)
             (deriveTypeInfo x t name attrs) }

/-- RegisterTypeMore: panics (modelled as Except.error carrying the
panic message) when the map already has an entry for the immediate
run-time type of the value, before any indirection is followed;
otherwise registers. -/
def RegisterTypeMore (x : XmlUtil) (t : GoType) (name : XName)
    (attrs : List XAttr) : Except String XmlUtil :=
  match lookupTy x.typeMap t with
  | some _ => .error ("xmlutil: " ++ typName t ++ " already registered")
  | none => .ok (registerType x t name attrs)

/-- RegisterType: RegisterTypeMore with an empty name and no fixed
attributes. -/
def RegisterType (x : XmlUtil) (t : GoType) : Except String XmlUtil :=
  RegisterTypeMore x t ⟨"", ""⟩ []

/-- getTypeInfo: cached typeInfo of the underlying type, deriving one
with default name and no attributes on a miss.  The source also stores
the derived info back into the map; that memoization only re-exposes the
same deterministic derivation and is elided in this pure model. -/
def getTypeInfo (x : XmlUtil) (t : GoType) : TypeInfo :=
  match lookupTy x.typeMap (underlying t) with
  | some ti => ti
  | none => deriveTypeInfo x (underlying t) ⟨"", ""⟩ []

/-- getTypeByName: linear reverse lookup over the type map, first match
in table order. -/
def getTypeByName (x : XmlUtil) (n : XName) : Option GoType :=
  (x.typeMap.find? (fun p => p.2.name == n)).map (fun p => p.1)

/- ---------------------------------------------------------------------
Leaf-value coercion (copyValue) and its strconv collaborators.
--------------------------------------------------------------------- -/

/-- Decimal digit run to a number; none when empty or non-digit. -/
def parseDigits (cs : List Char) : Option Nat :=
  if cs ≠ [] ∧ cs.all Char.isDigit then
    some (cs.foldl (fun a c => a * 10 + (c.toNat - 48)) 0)
  else none

/-- strconv.ParseInt(s, 10, 64): optional sign, decimal digits, 64-bit
signed range. -/
def parseInt (s : String) : Option Int :=
  match s.data with
  | '+' :: rest =>
    (parseDigits rest).bind fun n =>
      if n ≤ 2 ^ 63 - 1 then some (n : Int) else none
  | '-' :: rest =>
    (parseDigits rest).bind fun n =>
      if n ≤ 2 ^ 63 then some (-(n : Int)) else none
  | cs =>
    (parseDigits cs).bind fun n =>
      if n ≤ 2 ^ 63 - 1 then some (n : Int) else none

/-- strconv.ParseBool: the accepted true and false literal forms. -/
def parseBool (s : String) : Option Bool :=
  if s = "1" ∨ s = "t" ∨ s = "T" ∨ s = "true" ∨ s = "TRUE" ∨ s = "True" then
    some true
  else if s = "0" ∨ s = "f" ∨ s = "F" ∨ s = "false" ∨ s = "FALSE" ∨ s = "False" then
    some false
  else none

/-- Decode-side errors: clean end of stream (io.EOF), any other error of
the underlying token source, a strconv parse failure recording the
offending text, and the non-pointer destination error. -/
inductive DErr where
  | eof : DErr
  | xmlErr : String → DErr
  | parseErr : String → DErr
  | nonPointer : DErr
deriving DecidableEq

/-- copyValue(dst, src): coerce accumulated text into a destination.
Kinds without a case in the source switch (pointers, interfaces, maps,
the invalid value) are left untouched without error.  The source treats
a []byte destination specially only in that a zero-length source still
yields a non-nil empty slice; the model of bytes as String has no such
distinction.  The time.Time case of the source is outside the modelled
universe. -/
def copyValue (dst : GoVal) (src : String) : Except DErr GoVal :=
  match dst with
  | .vint _ =>
    match parseInt src with
    | some n => .ok (.vint n)
    | none => .error (.parseErr src)
  | .vbool _ =>
    match parseBool src.trim with
    | some b => .ok (.vbool b)
    | none => .error (.parseErr src)
  | .vstr _ => .ok (.vstr src)
  | .vbytes _ => .ok (.vbytes src)
  | d => .ok d

/- ---------------------------------------------------------------------
The token stream.
--------------------------------------------------------------------- -/

/-- The three token shapes the decoder distinguishes. -/
inductive Tok where
  | tstart : XName → List XAttr → Tok
  | tchar : String → Tok
  | tend : XName → Tok
deriving DecidableEq

/-- A start tag already taken off the stream. -/
abbrev StartTag := XName × List XAttr

/-- The token source: the remaining tokens, then a terminal read error
(io.EOF for a cleanly exhausted document). -/
structure Stream where
  toks : List Tok
  term : DErr
deriving DecidableEq

/-- The start==nil loop of unmarshal (and the head of Decode): read and
discard tokens until a start tag arrives; a read error propagates. -/
def findStartTok : List Tok → DErr → Except DErr (StartTag × Stream)
  | [], term => .error term
  | .tstart n a :: rest, term => .ok ((n, a), ⟨rest, term⟩)
  | _ :: rest, term => findStartTok rest term

/-- The default (leaf) loop of unmarshal: accumulate character data at
depth zero, count nested tags without capturing their text, stop at the
end tag that closes the leaf element. -/
def leafLoop : List Tok → DErr → Nat → String → Except DErr (String × Stream)
  | [], term, _, _ => .error term
  | .tstart _ _ :: rest, term, depth, dat => leafLoop rest term (depth + 1) dat
  | .tchar s :: rest, term, depth, dat =>
    leafLoop rest term depth (if depth = 0 then dat ++ s else dat)
  | .tend _ :: rest, term, depth, dat =>
    if depth = 0 then .ok (dat, ⟨rest, term⟩)
    else leafLoop rest term (depth - 1) dat

/-- The unmatched-element skip loop of unmarshalFields: consume the rest
of an element whose start tag was already read, by depth counting. -/
def skipLoop : List Tok → DErr → Nat → Except DErr Stream
  | [], term, _ => .error term
  | .tstart _ _ :: rest, term, depth => skipLoop rest term (depth + 1)
  | .tchar _ :: rest, term, depth => skipLoop rest term depth
  | .tend _ :: rest, term, depth =>
    if depth = 0 then .ok ⟨rest, term⟩
    else skipLoop rest term (depth - 1)

/- ---------------------------------------------------------------------
The decoder.
--------------------------------------------------------------------- -/

/-- The field chosen for an attribute: first field with fAttr set whose
name equals the attribute name. -/
def attrFieldMatch (fields : List FieldInfo) (an : XName) : Option FieldInfo :=
  fields.find? (fun fi => fi.flags.attr && fi.name == an)

/-- The field chosen for a child element: first non-attribute field
whose name equals the tag name or whose fInterface flag is set. -/
def elemFieldMatch (fields : List FieldInfo) (tn : XName) : Option FieldInfo :=
  fields.find? (fun fi => !fi.flags.attr && (fi.name == tn || fi.flags.iface))

/-- The attribute phase of unmarshalFields: for each attribute of the
start tag in order, coerce its literal into the matching attribute
field; a coercion error stops the phase and is returned with the fields
mutated so far. -/
def applyAttrs (fields : List FieldInfo) :
    List XAttr → List GoVal → List GoVal × Option DErr
  | [], fvs => (fvs, none)
  | a :: rest, fvs =>
    match attrFieldMatch fields a.name with
    | none => applyAttrs fields rest fvs
    | some fi =>
      match copyValue (getFieldVal fvs fi.index) a.value with
      | .error e => (fvs, some e)
      | .ok v => applyAttrs fields rest (fvs.set fi.index v)

/-- reflect.MakeSlice: fresh zeroed storage of the given length and
capacity. -/
def makeSlice (ety : GoType) (len cap : Nat) : GoVal :=
  .vslice ety cap (List.replicate len (zeroVal ety))

/-- reflect.Copy(dst, src) for slices: copy min(len dst, len src)
elements into the front of dst, keeping dst type and capacity. -/
def sliceCopyInto (dst src : GoVal) : GoVal :=
  match dst, src with
  | .vslice t c d, .vslice _ _ sd => .vslice t c (sd.take d.length ++ d.drop sd.length)
  | d, _ => d

/-- reflect.Value.SetLen on a slice.  Growing within capacity exposes
backing storage, modelled as zeroed (as MakeSlice leaves it). -/
def sliceSetLen (v : GoVal) (n : Nat) : GoVal :=
  match v with
  | .vslice t c d =>
    .vslice t c (if n ≤ d.length then d.take n
                 else d ++ List.replicate (n - d.length) (zeroVal t))
  | d => d

/-- reflect.Value.Index on a slice. -/
def sliceIndex (v : GoVal) (i : Nat) : GoVal :=
  match v with
  | .vslice t _ d => d.getD i (zeroVal t)
  | _ => .vinvalid

/-- Writing back through the reference obtained from Index. -/
def sliceSetIndex (v : GoVal) (i : Nat) (w : GoVal) : GoVal :=
  match v with
  | .vslice t c d => .vslice t c (d.set i w)
  | d => d

/-- Results of a decode step: the (possibly partially mutated)
destination, the advanced stream, and the error being propagated if
any; noFuel is the artefact of bounding the unbounded Go loops. -/
inductive DR (α : Type) where
  | res : α → Stream → Option DErr → DR α
  | noFuel : DR α

/-- The token loop of unmarshalFields, after the attribute phase.  The
um argument is the unmarshal function for the recursion into matched
fields (tied below); the Nat bounds the loop iterations.  Each
iteration reads one token: a start tag is namespace-corrected, matched
against the fields, and either decoded into the matched field or
skipped as an unknown subtree; an end tag ends the struct; character
data has no case in the source switch and is dropped; a read error
propagates.  (The fval.IsValid() guard of the source can never fire on
a struct field and has no model.) -/
def unmarshalFieldsLoop (x : XmlUtil)
    (um : GoVal → Option StartTag → Stream → DR GoVal) :
    Nat → TypeInfo → List GoVal → Stream → DR (List GoVal)
  | 0, _, _, _ => .noFuel
  | fuel + 1, ti, fvs, s =>
    match s.toks with
    | [] => .res fvs ⟨[], s.term⟩ (some s.term)
    | .tchar _ :: rest => unmarshalFieldsLoop x um fuel ti fvs ⟨rest, s.term⟩
    | .tend _ :: rest => .res fvs ⟨rest, s.term⟩ none
    | .tstart nm attrs :: rest =>
      let uri := lookupNamespaceUri x nm.space
      let nm1 := if uri ≠ "" then { nm with space := uri } else nm
      match elemFieldMatch ti.fields nm1 with
      | some fi =>
        match um (getFieldVal fvs fi.index) (some (nm1, attrs)) ⟨rest, s.term⟩ with
        | .noFuel => .noFuel
        | .res v1 s2 (some e) => .res (fvs.set fi.index v1) s2 (some e)
        | .res v1 s2 none => unmarshalFieldsLoop x um fuel ti (fvs.set fi.index v1) s2
      | none =>
        match skipLoop rest s.term 0 with
        | .error e => .res fvs ⟨[], s.term⟩ (some e)
        | .ok s2 => unmarshalFieldsLoop x um fuel ti fvs s2

/-- unmarshal: the per-kind dispatch of the decoder.  When no start tag
is supplied, tokens are read up to the next start tag first.  The
switch on the destination kind: structs run the attribute phase and the
field loop; slices grow the backing storage, decode into the fresh last
slot and roll the length back on failure; interfaces resolve the tag
name through the registry, silently doing nothing on an unknown name;
pointers allocate on nil and recurse; every other kind is a leaf whose
depth-zero text is coerced by copyValue — the source discards the
result of that copyValue call, so a failing leaf coercion leaves the
destination unchanged and returns no error (only the attribute phase
of unmarshalFields checks the copyValue error).  ([]byte destinations
of the source would take the slice path; byte slices appear in this
model only as attribute and leaf text carriers, which no claim
exercises as an element destination.) -/
def unmarshal (x : XmlUtil) :
    Nat → GoVal → Option StartTag → Stream → DR GoVal
  | 0, _, _, _ => .noFuel
  | fuel + 1, val, ostart, s =>
    match (match ostart with
           | some st => Except.ok (st, s)
           | none => findStartTok s.toks s.term) with
    | .error e => .res val ⟨[], s.term⟩ (some e)
    | .ok (start, s1) =>
      match val with
      | .vstruct ty fvs =>
        let ti := getTypeInfo x ty
        match applyAttrs ti.fields start.2 fvs with
        | (fvs1, some e) => .res (.vstruct ty fvs1) s1 (some e)
        | (fvs1, none) =>
          match unmarshalFieldsLoop x
              (fun v o s2 => unmarshal x fuel v o s2) fuel ti fvs1 s1 with
          | .noFuel => .noFuel
          | .res fvs2 s2 e => .res (.vstruct ty fvs2) s2 e
      | .vslice ety cap elems =>
        let n := elems.length
        let grown := if n ≥ cap then
                       let ncap := if 2 * n < 4 then 4 else 2 * n
                       sliceCopyInto (makeSlice ety n ncap) val
                     else val
        let ext := sliceSetLen grown (n + 1)
        match unmarshal x fuel (sliceIndex ext n) (some start) s1 with
        | .noFuel => .noFuel
        | .res v1 s2 none => .res (sliceSetIndex ext n v1) s2 none
        | .res v1 s2 (some e) =>
          .res (sliceSetLen (sliceSetIndex ext n v1) n) s2 (some e)
      | .vifaceNil | .vifaceV _ _ =>
        match getTypeByName x start.1 with
        | none => .res val s1 none
        | some nt =>
          match unmarshal x fuel (zeroVal nt) (some start) s1 with
          | .noFuel => .noFuel
          | .res _ s2 (some e) => .res val s2 (some e)
          | .res v1 s2 none => .res (.vifaceV nt v1) s2 none
      | .vptrNil ety =>
        match unmarshal x fuel (zeroVal ety) (some start) s1 with
        | .noFuel => .noFuel
        | .res v1 s2 e => .res (.vptrSome ety v1) s2 e
      | .vptrSome ety inner =>
        match unmarshal x fuel inner (some start) s1 with
        | .noFuel => .noFuel
        | .res v1 s2 e => .res (.vptrSome ety v1) s2 e
      | _ =>
        match leafLoop s1.toks s1.term 0 "" with
        | .error e => .res val ⟨[], s1.term⟩ (some e)
        | .ok (dat, s2) =>
          match copyValue val dat with
          | .error _ => .res val s2 none
          | .ok v1 => .res v1 s2 none

/-- The for-loop of DecodeElement for a top-level sequence destination:
repeat unmarshal until it returns an error, which ends the loop. -/
def decodeSliceRest (x : XmlUtil) : Nat → GoVal → Stream → DR GoVal
  | 0, _, _ => .noFuel
  | fuel + 1, v, s =>
    match unmarshal x fuel v none s with
    | .noFuel => .noFuel
    | .res v1 s1 none => decodeSliceRest x fuel v1 s1
    | .res v1 s1 (some e) => .res v1 s1 (some e)

/-- DecodeElement: a non-pointer destination is an immediate error that
touches no tokens.  A pointee of slice kind runs one unmarshal with the
supplied start tag (its error value is overwritten unchecked, exactly
as in the source) and then the sequence loop, translating a final io.EOF
into success; any other pointee decodes exactly one element.  A nil
pointer destination makes val.Elem() the invalid value, whose kind
falls into the leaf path with a no-op coercion. -/
def DecodeElement (x : XmlUtil) (fuel : Nat) (v : GoVal)
    (start : Option StartTag) (s : Stream) : DR GoVal :=
  match v with
  | .vptrSome ety elem =>
    match elem with
    | .vslice _ _ _ =>
      match unmarshal x fuel elem start s with
      | .noFuel => .noFuel
      | .res v1 s1 _ =>
        match decodeSliceRest x fuel v1 s1 with
        | .noFuel => .noFuel
        | .res v2 s2 e2 =>
          .res (.vptrSome ety v2) s2 (if e2 = some .eof then none else e2)
    | _ =>
      match unmarshal x fuel elem start s with
      | .noFuel => .noFuel
      | .res v1 s1 e => .res (.vptrSome ety v1) s1 e
  | .vptrNil ety =>
    match unmarshal x fuel .vinvalid start s with
    | .noFuel => .noFuel
    | .res _ s1 e => .res (.vptrNil ety) s1 e
  | _ => .res v s (some .nonPointer)

/-- Decode(v) is DecodeElement(v, nil). -/
def Decode (x : XmlUtil) (fuel : Nat) (v : GoVal) (s : Stream) : DR GoVal :=
  DecodeElement x fuel v none s

/- ---------------------------------------------------------------------
The encoder.  Output is the buffered writer content threaded as a
String; Encode flushes it to the sink once at the end of the call.  A
Go runtime panic (a nil interface field without omitempty, a non-byte
slice reaching marshalText) is a distinguished outcome that propagates
past the flush.
--------------------------------------------------------------------- -/

/-- xml.Escape of one character. -/
def escChar (c : Char) : String :=
  if c = '"' then "&#34;"
  else if c = '\'' then "&#39;"
  else if c = '&' then "&amp;"
  else if c = '<' then "&lt;"
  else if c = '>' then "&gt;"
  else if c = '\t' then "&#x9;"
  else if c = '\n' then "&#xA;"
  else if c = '\r' then "&#xD;"
  else String.singleton c

/-- xml.Escape over a string. -/
def escapeStr (s : String) : String :=
  String.join (s.data.map escChar)

/-- isEmptyValue, exactly the kinds of the source switch; kinds without
a case (structs, the invalid value) are not empty. -/
def isEmptyValue : GoVal → Bool
  | .vslice _ _ d => d.length = 0
  | .vmap n => n = 0
  | .vstr s => s = ""
  | .vbytes s => s = ""
  | .vbool b => !b
  | .vint n => n = 0
  | .vifaceNil => true
  | .vifaceV _ _ => false
  | .vptrNil _ => true
  | .vptrSome _ _ => false
  | _ => false

/-- Encode outcomes: a normal return with nil error, a returned
UnsupportedTypeError naming the offending type, or a runtime panic. -/
inductive EncOutcome where
  | ok : EncOutcome
  | errU : GoType → EncOutcome
  | panicked : String → EncOutcome

/-- Encoder results: output produced so far plus outcome, or the fuel
artefact. -/
inductive ER where
  | res : String → EncOutcome → ER
  | noFuel : ER

/-- marshalText: leaf encodings.  The time.Time case of the source is
outside the modelled universe.  A struct, pointer, interface or map
value falls into the default case: an UnsupportedTypeError carrying
val.Type().  A non-byte slice would panic inside val.Bytes(). -/
def marshalText (v : GoVal) (buf : String) : String × EncOutcome :=
  match v with
  | .vint n => (buf ++ toString n, .ok)
  | .vbool b => (buf ++ (if b then "true" else "false"), .ok)
  | .vstr s => (buf ++ escapeStr s, .ok)
  | .vbytes s => (buf ++ escapeStr s, .ok)
  | .vslice _ _ _ => (buf, .panicked "reflect: Bytes of non-byte slice")
  | v => (buf, .errU (valType v))

/-- The tag spelling of a qualified name: prefix-qualified when the
namespace has a known prefix, else the bare local name. -/
def qualTag (x : XmlUtil) (n : XName) : String :=
  if n.space ≠ "" then
    let p := lookupPrefixOf x n.space
    if p ≠ "" then p ++ ":" ++ n.loc else n.loc
  else n.loc

/-- The field half of marshalAttributes: one attribute per fAttr field
whose name was not already emitted, value leaf-encoded; an encoding
error stops the loop (the closing quote of the failed attribute is not
yet written). -/
def marshalAttrFields (x : XmlUtil) (v : GoVal) :
    List FieldInfo → List XName → String → String × List XName × EncOutcome
  | [], seen, buf => (buf, seen, .ok)
  | fi :: rest, seen, buf =>
    if fi.flags.attr = false then marshalAttrFields x v rest seen buf
    else if seen.contains fi.name then marshalAttrFields x v rest seen buf
    else
      let seen1 := fi.name :: seen
      let buf1 := buf ++ " " ++ qualTag x fi.name ++ "=\""
      match marshalText (getField v fi.index) buf1 with
      | (buf2, .ok) => marshalAttrFields x v rest seen1 (buf2 ++ "\"")
      | (buf2, e) => (buf2, seen1, e)

/-- The fixed-attribute half of marshalAttributes: literal values,
escaped; never fails. -/
def marshalFixedAttrs (x : XmlUtil) :
    List XAttr → List XName → String → String
  | [], _, buf => buf
  | a :: rest, seen, buf =>
    if seen.contains a.name then marshalFixedAttrs x rest seen buf
    else
      marshalFixedAttrs x rest (a.name :: seen)
        (buf ++ " " ++ qualTag x a.name ++ "=\"" ++ escapeStr a.value ++ "\"")

/-- marshalAttributes: field attributes first, then the fixed attributes
of the typeInfo, sharing one emitted-name set (first wins). -/
def marshalAttributes (x : XmlUtil) (v : GoVal) (ti : TypeInfo)
    (buf : String) : String × EncOutcome :=
  match marshalAttrFields x v ti.fields [] buf with
  | (b1, seen, .ok) => (marshalFixedAttrs x ti.attrs seen b1, .ok)
  | (b1, _, e) => (b1, e)

/-- The per-item loop for non-byte slices and arrays: each item is
marshalled with the same name; the first error stops the loop. -/
def marshalSliceItems (mv : GoVal → Option XName → String → ER) :
    List GoVal → Option XName → String → ER
  | [], _, buf => .res buf .ok
  | e :: rest, oname, buf =>
    match mv e oname buf with
    | .noFuel => .noFuel
    | .res b .ok => marshalSliceItems mv rest oname b
    | .res b o => .res b o

/-- marshalFields: emit one child element per non-attribute field,
skipping empty omitempty fields; an fInterface field overrides the
child name with the registered name of the dynamic type of the field
value, panicking on a nil interface (zero Value has no Type) and on a
field value that is not of interface kind (Elem of a non-interface).
The mv argument is marshalValue at the enclosing fuel. -/
def marshalFields (x : XmlUtil) (mv : GoVal → Option XName → String → ER)
    (v : GoVal) : List FieldInfo → String → ER
  | [], buf => .res buf .ok
  | fi :: rest, buf =>
    if fi.flags.attr then marshalFields x mv v rest buf
    else
      let fval := getField v fi.index
      if fi.flags.omitEmpty && isEmptyValue fval then
        marshalFields x mv v rest buf
      else
        match (if fi.flags.iface then
                 match fval with
                 | .vifaceV t _ => Except.ok (getTypeInfo x t).name
                 | .vifaceNil =>
                   Except.error "reflect: call of reflect.Value.Type on zero Value"
                 | _ =>
                   Except.error "reflect: call of reflect.Value.Elem on non-interface value"
               else Except.ok fi.name : Except String XName) with
        | .error m => .res buf (.panicked m)
        | .ok nm =>
          match mv fval (some nm) buf with
          | .noFuel => .noFuel
          | .res b .ok => marshalFields x mv v rest b
          | .res b o => .res b o

/-- marshalValue: the recursive emitter.  An invalid value emits
nothing; nil pointers and interfaces emit nothing; non-nil pointers and
interfaces unwrap; non-byte slices emit one sibling element per item;
otherwise the element is emitted from the typeInfo: opening tag,
attributes (a returned attribute error is checked but followed by
return nil, silently ending the element, exactly as in the source — a
panic still propagates), then field children for structs or leaf text
otherwise, then the closing tag. -/
def marshalValue (x : XmlUtil) :
    Nat → GoVal → Option XName → String → ER
  | 0, _, _, _ => .noFuel
  | fuel + 1, v, oname, buf =>
    match v with
    | .vinvalid => .res buf .ok
    | .vptrNil _ => .res buf .ok
    | .vifaceNil => .res buf .ok
    | .vptrSome _ inner => marshalValue x fuel inner oname buf
    | .vifaceV _ inner => marshalValue x fuel inner oname buf
    | .vslice _ _ elems =>
      marshalSliceItems (fun w o b => marshalValue x fuel w o b) elems oname buf
    | v =>
      let ti := getTypeInfo x (valType v)
      let name := oname.getD ti.name
      let tag := qualTag x name
      let buf1 := buf ++ "<" ++ tag
      match marshalAttributes x v ti buf1 with
      | (buf2, .panicked m) => .res buf2 (.panicked m)
      | (buf2, .errU _) => .res buf2 .ok
      | (buf2, .ok) =>
        let buf3 := buf2 ++ ">"
        match (match v with
               | .vstruct _ _ =>
                 marshalFields x (fun w o b => marshalValue x fuel w o b)
                   v ti.fields buf3
               | _ =>
                 match marshalText v buf3 with
                 | (b, o) => ER.res b o) with
        | .noFuel => .noFuel
        | .res buf4 .ok => .res (buf4 ++ "</" ++ tag ++ ">") .ok
        | .res buf4 o => .res buf4 o

/-- Encode: marshal into the buffer, flush the buffer to the sink once,
return the error.  The flush runs even when an error is returned; a
panic propagates before the flush, so the sink stays empty. -/
def Encode (x : XmlUtil) (fuel : Nat) (v : GoVal) : ER :=
  match marshalValue x fuel v none "" with
  | .noFuel => .noFuel
  | .res _ (.panicked m) => .res "" (.panicked m)
  | .res buf o => .res buf o

/- ---------------------------------------------------------------------
Specification-side definitions, written from the words of the spec (not
from the source), used only to compare the implementation against the
claims that describe its behaviour functionally.
--------------------------------------------------------------------- -/

/-- Spec: the tokens of a leaf element are balanced when a matching end
tag at the own depth of the leaf element eventually arrives. -/
def specLeafBalanced : List Tok → Nat → Bool
  | [], _ => false
  | .tstart _ _ :: rest, d => specLeafBalanced rest (d + 1)
  | .tchar _ :: rest, d => specLeafBalanced rest d
  | .tend _ :: rest, d => if d = 0 then true else specLeafBalanced rest (d - 1)

/-- Spec: the text of a leaf element is the concatenation of exactly the
character-data tokens at nesting depth zero, up to the balancing end
tag; text nested below start tags is not captured. -/
def specLeafText : List Tok → Nat → String
  | [], _ => ""
  | .tstart _ _ :: rest, d => specLeafText rest (d + 1)
  | .tchar s :: rest, d => (if d = 0 then s else "") ++ specLeafText rest d
  | .tend _ :: rest, d => if d = 0 then "" else specLeafText rest (d - 1)

/-- Spec: the tokens remaining after the balancing end tag of a leaf
element. -/
def specLeafRest : List Tok → Nat → List Tok
  | [], _ => []
  | .tstart _ _ :: rest, d => specLeafRest rest (d + 1)
  | .tchar _ :: rest, d => specLeafRest rest d
  | .tend _ :: rest, d => if d = 0 then rest else specLeafRest rest (d - 1)

/- ---------------------------------------------------------------------
Registration histories, for the registry and namespace-table invariant
claims: every reachable state is the fold of a list of public
registration calls over the freshly constructed state.
--------------------------------------------------------------------- -/

/-- One public registration call. -/
inductive RegOp where
  | reg : GoType → XName → List XAttr → RegOp
  | regNs : String → String → RegOp

/-- Apply one call; a panicking RegisterTypeMore leaves no new state
behind. -/
def applyRegOp (x : XmlUtil) : RegOp → XmlUtil
  | .reg t n a =>
    match RegisterTypeMore x t n a with
    | .ok x1 => x1
    | .error _ => x
  | .regNs uri pfx => RegisterNamespace x uri pfx

/-- The state after a history of registration calls. -/
def applyRegOps (ops : List RegOp) : XmlUtil :=
  ops.foldl applyRegOp NewXmlUtil

/-- At most one entry per run-time type: the keys of the type map are
pairwise distinct. -/
def keysNodupTy : List (GoType × TypeInfo) → Bool
  | [] => true
  | (t, _) :: rest => rest.all (fun p => !tyEq p.1 t) && keysNodupTy rest

/-- The state after a history of namespace registrations only. -/
def applyNsRegs (regs : List (String × String)) : XmlUtil :=
  regs.foldl (fun x p => RegisterNamespace x p.1 p.2) NewXmlUtil

/-- Leaf kinds: destinations that take the default branch of the
unmarshal switch (the byte-slice and invalid corners excluded, see
unmarshal). -/
def leafKind : GoVal → Bool
  | .vint _ => true
  | .vstr _ => true
  | .vbool _ => true
  | .vmap _ => true
  | _ => false

/- ---------------------------------------------------------------------
Concrete fixtures used by the claim theorems.
--------------------------------------------------------------------- -/

/-- A struct whose one field is a map (no leaf encoding) in attribute
position. -/
def c1AttrTy : GoType := .structT "S1" [.mk "F" "f,attr" true false .mapT]

def c1AttrVal : GoVal := .vstruct c1AttrTy [.vmap 1]

/-- A struct whose one field is a map in element-content position. -/
def c1ElemTy : GoType := .structT "T1" [.mk "G" "g" true false .mapT]

def c1ElemVal : GoVal := .vstruct c1ElemTy [.vmap 1]

/-- A struct whose one field is an int attribute b. -/
def c2AttrTy : GoType := .structT "S2" [.mk "B" "b,attr" true false .intT]

/-- One top-level element A whose attribute b holds non-numeric text. -/
def c2Stream : Stream :=
  ⟨[.tstart ⟨"", "A"⟩ [⟨⟨"", "b"⟩, "x"⟩], .tend ⟨"", "A"⟩], .eof⟩

/-- A pointer to a sequence of S2 destination. -/
def c2Dest : GoVal := .vptrSome (.sliceT c2AttrTy) (.vslice c2AttrTy 0 [])

/-- A struct with an interface-typed field followed by an int field. -/
def c3Ty : GoType :=
  .structT "S3" [.mk "I" "" true false .ifaceT, .mk "B" "" true false .intT]

/-- A document whose unknown polymorphic element Poly precedes the
sibling element B. -/
def c3Stream : Stream :=
  ⟨[.tstart ⟨"", "S3"⟩ [], .tstart ⟨"", "Poly"⟩ [], .tend ⟨"", "Poly"⟩,
    .tstart ⟨"", "B"⟩ [], .tchar "5", .tend ⟨"", "B"⟩, .tend ⟨"", "S3"⟩], .eof⟩

def c4Ty : GoType := .structT "T4" []

/-- The registry after registering T4 once. -/
def c4State : XmlUtil := registerType NewXmlUtil c4Ty ⟨"", ""⟩ []

/-- A struct with a nil interface field and no omitempty. -/
def c6Ty : GoType := .structT "S6" [.mk "A" "" true false .ifaceT]

def c6Val : GoVal := .vstruct c6Ty [.vifaceNil]

/-- The element name of the C7 sibling sequence. -/
def c7Name : XName := ⟨"", "e"⟩

/-- A document of sibling leaf elements e, one per given string. -/
def c7Doc (ss : List String) : List Tok :=
  ss.flatMap (fun s => [.tstart c7Name [], .tchar s, .tend c7Name])

/-- A struct with an int element field and then a map element field,
whose encoding fails midway. -/
def c10Ty : GoType :=
  .structT "S10" [.mk "A" "A" true false .intT, .mk "B" "B" true false .mapT]

def c10Val : GoVal := .vstruct c10Ty [.vint 1, .vmap 1]

/-- The content of a leaf element L with nested markup between the two
halves of its own text, then tokens past the element. -/
def c8Toks : List Tok :=
  [.tchar "he", .tstart ⟨"", "X"⟩ [], .tchar "IGNORED", .tend ⟨"", "X"⟩,
   .tchar "llo", .tend ⟨"", "L"⟩, .tchar "rest"]

/- ---------------------------------------------------------------------
Theorems.
--------------------------------------------------------------------- -/

/-- C1: the code contradicts the claim in attribute position.  A map
field in attribute position makes marshalAttributes return an
UnsupportedTypeError, but marshalValue tests that error and returns
nil, so Encode reports success after flushing the truncated element; in
element-content position the same kind does surface the error naming
the offending type, as the claim states. -/
theorem encode_unsupported_attr_error_swallowed :
    Encode NewXmlUtil 6 c1AttrVal = ER.res "<S1 f=\"" .ok ∧
    Encode NewXmlUtil 6 c1ElemVal = ER.res "<T1><g>" (.errU .mapT) :=
  ⟨rfl, rfl⟩

/-- C2: the code contradicts the claim twice over.  Decoding element A
with the malformed int attribute b="x" into the first slot of a
top-level sequence raises a parse error in the attribute phase (second
conjunct: the slice unmarshal returns it, with the length growth rolled
back), but DecodeElement overwrites that error unchecked in its
sequence path, reads on to end of stream and returns success (first
conjunct).  Independently, a parse failure of a leaf element's own text
is never raised at all: the decoder discards the copyValue result in
the leaf branch, so an int leaf holding "x" decodes with a nil error
and an untouched destination (third conjunct). -/
theorem decode_first_sequence_error_dropped :
    DecodeElement NewXmlUtil 10 c2Dest none c2Stream =
      DR.res (.vptrSome (.sliceT c2AttrTy) (.vslice c2AttrTy 4 [])) ⟨[], .eof⟩
        none ∧
    unmarshal NewXmlUtil 10 (.vslice c2AttrTy 0 []) none c2Stream =
      DR.res (.vslice c2AttrTy 4 []) ⟨[.tend ⟨"", "A"⟩], .eof⟩
        (some (.parseErr "x")) ∧
    unmarshal NewXmlUtil 5 (.vint 0) (some (⟨"", "A"⟩, []))
        ⟨[.tchar "x", .tend ⟨"", "A"⟩], .eof⟩ =
      DR.res (.vint 0) ⟨[], .eof⟩ none :=
  ⟨rfl, rfl, rfl⟩

/-- C3 counterexample: decoding S3 whose unknown polymorphic element
Poly precedes the sibling element B returns no error and leaves the
interface field unset, but B is also left undecoded (still 0) and the
stream still holds the four tokens from B onward: the end tag of Poly
ended the field loop of S3. -/
theorem decode_unknown_iface_sibling_lost :
    DecodeElement NewXmlUtil 10
        (.vptrSome c3Ty (.vstruct c3Ty [.vifaceNil, .vint 0])) none c3Stream =
      DR.res (.vptrSome c3Ty (.vstruct c3Ty [.vifaceNil, .vint 0]))
        ⟨[.tstart ⟨"", "B"⟩ [], .tchar "5", .tend ⟨"", "B"⟩, .tend ⟨"", "S3"⟩],
         .eof⟩ none :=
  rfl

/-- C3 (amended): decoding an interface destination whose start tag has
no registered type leaves the destination unset and returns no error,
but consumes none of the tokens of the unknown element, so the
enclosing field loop next sees the content of the unknown element and
its end tag ends the enclosing struct early. -/
theorem decode_unknown_iface_unset_no_error_nothing_consumed
    (x : XmlUtil) (fuel : Nat) (st : StartTag) (s : Stream)
    (h : getTypeByName x st.1 = none) :
    unmarshal x (fuel + 1) .vifaceNil (some st) s = DR.res .vifaceNil s none := by
  obtain ⟨nm, attrs⟩ := st
  simp only [unmarshal]
  simp [h]

/-- C3 witness: the amended theorem applied at an empty registry and an
unregistered element name Z. -/
theorem decode_unknown_iface_unset_witness :
    getTypeByName NewXmlUtil ⟨"", "Z"⟩ = none ∧
    unmarshal NewXmlUtil 4 .vifaceNil (some (⟨"", "Z"⟩, [])) ⟨[], .eof⟩ =
      DR.res .vifaceNil ⟨[], .eof⟩ none :=
  ⟨rfl, decode_unknown_iface_unset_no_error_nothing_consumed NewXmlUtil 3
    (⟨"", "Z"⟩, []) ⟨[], .eof⟩ rfl⟩

/-- Filtering keeps an all-quantified boolean property. -/
theorem all_filter_of_all {α : Type} (f q : α → Bool) :
    ∀ l : List α, l.all f = true → (l.filter q).all f = true := by
  intro l h
  induction l with
  | nil => simp [List.filter]
  | cons a rest ih =>
    simp only [List.all_cons, Bool.and_eq_true] at h
    cases hq : q a <;> simp [List.filter, hq, h.1, ih h.2]

/-- Every survivor of a filter satisfies the filter predicate. -/
theorem all_filter_self {α : Type} (q : α → Bool) :
    ∀ l : List α, (l.filter q).all q = true := by
  intro l
  induction l with
  | nil => simp [List.filter]
  | cons a rest ih => cases hq : q a <;> simp [List.filter, hq, ih]

/-- Filtering keeps the type-map keys pairwise distinct. -/
theorem keysNodupTy_filter (q : GoType × TypeInfo → Bool) :
    ∀ m : List (GoType × TypeInfo), keysNodupTy m = true →
      keysNodupTy (m.filter q) = true := by
  intro m
  induction m with
  | nil => intro h; simpa [List.filter] using h
  | cons a rest ih =>
    intro h
    obtain ⟨b, c⟩ := a
    simp only [keysNodupTy, Bool.and_eq_true] at h
    cases hq : q (b, c) <;>
      simp [List.filter, hq, keysNodupTy, ih h.2, all_filter_of_all _ q rest h.1]

/-- insertTy keeps the type-map keys pairwise distinct. -/
theorem keysNodupTy_insertTy (m : List (GoType × TypeInfo)) (t : GoType)
    (ti : TypeInfo) (h : keysNodupTy m = true) :
    keysNodupTy (insertTy m t ti) = true := by
  simp [insertTy, keysNodupTy, keysNodupTy_filter _ m h,
    all_filter_self (fun p => !tyEq p.1 t) m]

/-- Every state built by a history of registration calls has pairwise
distinct type-map keys. -/
theorem keysNodupTy_applyRegOps_from :
    ∀ (ops : List RegOp) (x : XmlUtil), keysNodupTy x.typeMap = true →
      keysNodupTy (ops.foldl applyRegOp x).typeMap = true := by
  intro ops
  induction ops with
  | nil => intro x h; simpa using h
  | cons op rest ih =>
    intro x h
    simp only [List.foldl_cons]
    apply ih
    match op with
    | .regNs uri pfx => simpa [applyRegOp, RegisterNamespace] using h
    | .reg t n a =>
      simp only [applyRegOp, RegisterTypeMore]
      cases hl : lookupTy x.typeMap t with
      | some ti => simpa using h
      | none => simpa [registerType] using keysNodupTy_insertTy _ _ _ h

/-- C4 counterexample: with T4 already registered, registering a
pointer to T4 does not panic (the duplicate check looks up the pointer
type, the storage key is the underlying type), while registering T4
itself again does panic. -/
theorem register_ptr_of_registered_type_no_panic :
    RegisterTypeMore c4State (.ptrT c4Ty) ⟨"", ""⟩ [] =
      .ok (registerType c4State (.ptrT c4Ty) ⟨"", ""⟩ []) ∧
    RegisterTypeMore c4State c4Ty ⟨"", ""⟩ [] =
      .error "xmlutil: T4 already registered" :=
  ⟨rfl, rfl⟩

/-- C4 (amended): the duplicate-registration panic fires exactly on the
immediate run-time type of the value: any registration whose immediate
type already has a map entry panics with the already-registered
message (registering through fresh pointer indirection instead silently
overwrites the underlying entry, per the counterexample); and every
state reachable by registration histories still holds at most one
descriptor per run-time type. -/
theorem register_duplicate_immediate_type_panics_and_unique :
    (∀ (x : XmlUtil) (t : GoType) (n : XName) (a : List XAttr),
       (lookupTy x.typeMap t).isSome = true →
       RegisterTypeMore x t n a =
         .error ("xmlutil: " ++ typName t ++ " already registered")) ∧
    (∀ ops : List RegOp, keysNodupTy (applyRegOps ops).typeMap = true) := by
  constructor
  · intro x t n a h
    obtain ⟨ti, hti⟩ := Option.isSome_iff_exists.mp h
    simp [RegisterTypeMore, hti]
  · intro ops
    exact keysNodupTy_applyRegOps_from ops NewXmlUtil rfl

/-- C4 witness: the amended theorem applied to the state with T4
registered and at a two-call history. -/
theorem register_duplicate_witness :
    (lookupTy c4State.typeMap c4Ty).isSome = true ∧
    RegisterTypeMore c4State c4Ty ⟨"", ""⟩ [] =
      .error ("xmlutil: " ++ typName c4Ty ++ " already registered") ∧
    keysNodupTy (applyRegOps
      [.reg c4Ty ⟨"", ""⟩ [], .reg (.ptrT c4Ty) ⟨"", ""⟩ []]).typeMap = true :=
  ⟨rfl,
   register_duplicate_immediate_type_panics_and_unique.1 c4State c4Ty ⟨"", ""⟩ [] rfl,
   register_duplicate_immediate_type_panics_and_unique.2
     [.reg c4Ty ⟨"", ""⟩ [], .reg (.ptrT c4Ty) ⟨"", ""⟩ []]⟩

/-- Inserting under a different key does not change a lookup. -/
theorem lookupD_insertStr_ne (m : List (String × String)) (k k2 v : String)
    (h : k2 ≠ k) : lookupD (insertStr m k v) k2 = lookupD m k2 := by
  have hk : (k == k2) = false := by
    simp only [beq_eq_false_iff_ne]
    exact fun he => h he.symm
  have hfind : ∀ l : List (String × String),
      (l.filter (fun p => !(p.1 == k))).find? (fun p => p.1 == k2) =
        l.find? (fun p => p.1 == k2) := by
    intro l
    induction l with
    | nil => simp [List.filter]
    | cons a rest ih =>
      by_cases hak : a.1 = k
      · have h2 : (a.1 == k2) = false := by
          simp only [beq_eq_false_iff_ne]
          exact fun he => h (hak ▸ he).symm
        simp [List.filter, List.find?, hak, h2, hk, ih]
      · have h1 : (!(a.1 == k)) = true := by
          simpa [beq_eq_false_iff_ne] using hak
        cases h2 : (a.1 == k2) <;>
          simp [List.filter, List.find?, h1, h2, ih]
  simp [lookupD, insertStr, List.find?, hk, hfind]

/-- C5 counterexample: RegisterNamespace("xmlns", "p") overwrites the
identity pair, so the reachable state after that single call maps the
xmlns key to p. -/
theorem register_xmlns_overwrites_identity :
    lookupPrefixOf (RegisterNamespace NewXmlUtil "xmlns" "p") "xmlns" = "p" ∧
    ("p" : String) ≠ "xmlns" :=
  ⟨rfl, by decide⟩

/-- C5 (amended): the xmlns identity pair is present after construction
and is preserved by every registration history in which no call passes
xmlns as the URI or as the prefix; a call naming xmlns overwrites it
(last write wins, per the counterexample). -/
theorem xmlns_identity_preserved_without_xmlns_args :
    ∀ regs : List (String × String),
      (∀ p ∈ regs, p.1 ≠ "xmlns" ∧ p.2 ≠ "xmlns") →
      lookupPrefixOf (applyNsRegs regs) "xmlns" = "xmlns" ∧
      lookupNamespaceUri (applyNsRegs regs) "xmlns" = "xmlns" := by
  have main : ∀ (regs : List (String × String)) (x : XmlUtil),
      (∀ p ∈ regs, p.1 ≠ "xmlns" ∧ p.2 ≠ "xmlns") →
      lookupD x.nsPrefixMap "xmlns" = "xmlns" →
      lookupD x.nsUriMap "xmlns" = "xmlns" →
      lookupD ((regs.foldl (fun x p => RegisterNamespace x p.1 p.2) x).nsPrefixMap)
          "xmlns" = "xmlns" ∧
      lookupD ((regs.foldl (fun x p => RegisterNamespace x p.1 p.2) x).nsUriMap)
          "xmlns" = "xmlns" := by
    intro regs
    induction regs with
    | nil => intro x _ h1 h2; exact ⟨h1, h2⟩
    | cons r rest ih =>
      intro x hr h1 h2
      have hhead := hr r (List.mem_cons_self r rest)
      refine ih (RegisterNamespace x r.1 r.2)
        (fun p hp => hr p (List.mem_cons_of_mem r hp)) ?_ ?_
      · simpa [RegisterNamespace] using
          (lookupD_insertStr_ne x.nsPrefixMap r.1 "xmlns" r.2
            (fun he => hhead.1 he.symm)).trans h1
      · simpa [RegisterNamespace] using
          (lookupD_insertStr_ne x.nsUriMap r.2 "xmlns" r.1
            (fun he => hhead.2 he.symm)).trans h2
  intro regs hr
  exact main regs NewXmlUtil hr rfl rfl

/-- C5 witness: the amended theorem applied to the one-call history
registering urn:example with prefix ex. -/
theorem xmlns_identity_witness :
    lookupPrefixOf (applyNsRegs [("urn:example", "ex")]) "xmlns" = "xmlns" ∧
    lookupNamespaceUri (applyNsRegs [("urn:example", "ex")]) "xmlns" = "xmlns" :=
  xmlns_identity_preserved_without_xmlns_args [("urn:example", "ex")]
    (by intro p hp; rw [List.mem_singleton] at hp; subst hp; exact ⟨by decide, by decide⟩)

/-- C6 counterexample: encoding a struct with a nil interface field and
no omitempty panics (zero Value has no Type) instead of emitting
nothing, and the panic aborts the call before the flush. -/
theorem encode_nil_iface_field_panics :
    Encode NewXmlUtil 6 c6Val =
      ER.res "" (.panicked "reflect: call of reflect.Value.Type on zero Value") :=
  rfl

/-- C6 (amended): a nil pointer and a nil interface emit nothing and do
not fail wherever marshalValue reaches them (top level, pointee,
sequence item, or a field without the fInterface name override); both
count as empty, so an omitempty field holding them is skipped entirely;
but a nil interface field without omitempty panics in the fInterface
name override of marshalFields before marshalValue is reached. -/
theorem encode_nil_emits_nothing_except_nil_iface_field :
    (∀ (x : XmlUtil) (f : Nat) (t : GoType) (oname : Option XName) (buf : String),
       marshalValue x (f + 1) (.vptrNil t) oname buf = ER.res buf .ok) ∧
    (∀ (x : XmlUtil) (f : Nat) (oname : Option XName) (buf : String),
       marshalValue x (f + 1) .vifaceNil oname buf = ER.res buf .ok) ∧
    (isEmptyValue .vifaceNil = true ∧ ∀ t, isEmptyValue (.vptrNil t) = true) ∧
    (∀ (x : XmlUtil) (mv : GoVal → Option XName → String → ER) (v : GoVal)
       (fi : FieldInfo) (rest : List FieldInfo) (buf : String),
       fi.flags.omitEmpty = true → isEmptyValue (getField v fi.index) = true →
       marshalFields x mv v (fi :: rest) buf = marshalFields x mv v rest buf) ∧
    (∀ (x : XmlUtil) (mv : GoVal → Option XName → String → ER) (v : GoVal)
       (fi : FieldInfo) (rest : List FieldInfo) (buf : String),
       fi.flags.attr = false → fi.flags.omitEmpty = false →
       fi.flags.iface = true → getField v fi.index = .vifaceNil →
       marshalFields x mv v (fi :: rest) buf =
         ER.res buf (.panicked "reflect: call of reflect.Value.Type on zero Value")) := by
  refine ⟨fun x f t oname buf => rfl, fun x f oname buf => rfl,
    ⟨rfl, fun t => rfl⟩, ?_, ?_⟩
  · intro x mv v fi rest buf h1 h2
    cases hattr : fi.flags.attr <;> simp [marshalFields, hattr, h1, h2]
  · intro x mv v fi rest buf h1 h2 h3 h4
    simp [marshalFields, h1, h2, h3, h4]

/-- Appending to the empty string is the identity. -/
theorem str_empty_append (s : String) : "" ++ s = s := by
  cases s
  rfl

/-- Setting the slot one past a list. -/
theorem list_set_at_len {α : Type} (b : α) :
    ∀ (l : List α) (a : α), (l ++ [a]).set l.length b = l ++ [b] := by
  intro l
  induction l with
  | nil => intro a; rfl
  | cons c l ih => intro a; simp [List.set, ih]

/-- Reading the slot one past a list. -/
theorem list_getD_at_len {α : Type} (d : α) :
    ∀ (l : List α) (a : α), (l ++ [a]).getD l.length d = a := by
  intro l
  induction l with
  | nil => intro a; rfl
  | cons c l ih => intro a; simp [List.getD, ih a]

/-- Truncating an extended list recovers it. -/
theorem list_take_app_len {α : Type} :
    ∀ (l l2 : List α), (l ++ l2).take l.length = l := by
  intro l
  induction l with
  | nil => intro l2; rfl
  | cons c l ih => intro l2; simp [List.take, ih]

/-- Dropping the full length of a replicate leaves nothing. -/
theorem list_drop_len_replicate {α : Type} (z : α) :
    ∀ n : Nat, (List.replicate n z).drop n = [] := by
  intro n
  induction n with
  | zero => rfl
  | succ n ih => simp [List.replicate, ih]

/-- With no start tag supplied, unmarshal first resolves one from the
stream and then proceeds exactly as if it had been supplied. -/
theorem unmarshal_start_resolve (x : XmlUtil) (f : Nat) (v : GoVal)
    (s : Stream) (st : StartTag) (s1 : Stream)
    (h : findStartTok s.toks s.term = .ok (st, s1)) :
    unmarshal x (f + 1) v none s = unmarshal x (f + 1) v (some st) s1 := by
  simp [unmarshal, h]

/-- A string destination whose element holds one character-data token
decodes to exactly that text. -/
theorem unmarshal_leaf_str (x : XmlUtil) (f : Nat) (st : StartTag)
    (s0 : String) (nm : XName) (rest : List Tok) (term : DErr) :
    unmarshal x (f + 1) (.vstr "") (some st) ⟨.tchar s0 :: .tend nm :: rest, term⟩ =
      .res (.vstr s0) ⟨rest, term⟩ none := by
  simp [unmarshal, leafLoop, copyValue, str_empty_append]

/-- Decoding into a sequence destination is one growth-append-rollback
step: capacity doubles (minimum four) when the length has reached it,
the element is decoded into the new last slot, a failure rolls the
length back to the old elements while keeping the grown capacity. -/
theorem unmarshal_slice_step (x : XmlUtil) (f : Nat) (ety : GoType)
    (cap : Nat) (elems : List GoVal) (st : StartTag) (s : Stream) :
    unmarshal x (f + 1) (.vslice ety cap elems) (some st) s =
      match unmarshal x f (zeroVal ety) (some st) s with
      | .noFuel => .noFuel
      | .res v1 s2 none =>
        .res (.vslice ety (if elems.length ≥ cap then
            (if 2 * elems.length < 4 then 4 else 2 * elems.length) else cap)
          (elems ++ [v1])) s2 none
      | .res _ s2 (some e) =>
        .res (.vslice ety (if elems.length ≥ cap then
            (if 2 * elems.length < 4 then 4 else 2 * elems.length) else cap)
          elems) s2 (some e) := by
  have hgrow : ∀ ncap : Nat,
      sliceCopyInto (makeSlice ety elems.length ncap) (.vslice ety cap elems) =
        .vslice ety ncap elems := by
    intro ncap
    simp [sliceCopyInto, makeSlice, list_take_app_len, list_drop_len_replicate]
  simp only [unmarshal, hgrow]
  rw [← apply_ite (fun n => GoVal.vslice ety n elems)]
  generalize (if elems.length ≥ cap then
      (if 2 * elems.length < 4 then 4 else 2 * elems.length) else cap) = ncap
  have hext : sliceSetLen (GoVal.vslice ety ncap elems) (elems.length + 1) =
      .vslice ety ncap (elems ++ [zeroVal ety]) := by
    simp [sliceSetLen, List.replicate]
  rw [hext]
  have hidx : sliceIndex (GoVal.vslice ety ncap (elems ++ [zeroVal ety]))
      elems.length = zeroVal ety := by
    simp [sliceIndex, list_getD_at_len]
  rw [hidx]
  cases h : unmarshal x f (zeroVal ety) (some st) s with
  | noFuel => rfl
  | res v1 s2 e =>
    cases e with
    | none => simp [sliceSetIndex, list_set_at_len]
    | some e => simp [sliceSetIndex, sliceSetLen, list_set_at_len, list_take_app_len]

/-- One sibling string element of the C7 document appended through the
sequence path. -/
theorem c7_seq_step (x : XmlUtil) (f cap : Nat) (elems : List GoVal)
    (s0 : String) (rest : List Tok) :
    unmarshal x (f + 2) (.vslice .stringT cap elems) none
        ⟨.tstart c7Name [] :: .tchar s0 :: .tend c7Name :: rest, .eof⟩ =
      DR.res (.vslice .stringT (if elems.length ≥ cap then
          (if 2 * elems.length < 4 then 4 else 2 * elems.length) else cap)
        (elems ++ [.vstr s0])) ⟨rest, .eof⟩ none := by
  rw [show f + 2 = (f + 1) + 1 from rfl]
  rw [unmarshal_start_resolve x (f + 1) (.vslice .stringT cap elems)
    ⟨.tstart c7Name [] :: .tchar s0 :: .tend c7Name :: rest, .eof⟩ (c7Name, [])
    ⟨.tchar s0 :: .tend c7Name :: rest, .eof⟩ rfl]
  rw [unmarshal_slice_step]
  rw [show zeroVal .stringT = .vstr "" from rfl]
  rw [unmarshal_leaf_str]

/-- The sequence loop of DecodeElement over the C7 document appends all
sibling elements in document order and then ends with io.EOF. -/
theorem c7_seq_loop (x : XmlUtil) :
    ∀ (ss : List String) (f cap : Nat) (elems : List GoVal),
      ss.length + 2 ≤ f →
      ∃ ncap, decodeSliceRest x f (.vslice .stringT cap elems) ⟨c7Doc ss, .eof⟩ =
        DR.res (.vslice .stringT ncap (elems ++ ss.map .vstr)) ⟨[], .eof⟩
          (some .eof) := by
  intro ss
  induction ss with
  | nil =>
    intro f cap elems hf
    obtain ⟨f1, rfl⟩ : ∃ k, f = k + 2 := ⟨f - 2, by omega⟩
    refine ⟨cap, ?_⟩
    simp [c7Doc, decodeSliceRest, unmarshal, findStartTok]
  | cons s0 ss ih =>
    intro f cap elems hf
    obtain ⟨f1, rfl⟩ : ∃ k, f = k + 3 := ⟨f - 3, by simp at hf; omega⟩
    have hdoc : c7Doc (s0 :: ss) =
        .tstart c7Name [] :: .tchar s0 :: .tend c7Name :: c7Doc ss := by
      simp [c7Doc]
    rw [show f1 + 3 = (f1 + 2) + 1 from rfl, hdoc]
    rw [decodeSliceRest]
    rw [c7_seq_step]
    obtain ⟨ncap, hrec⟩ := ih (f1 + 2) (if elems.length ≥ cap then
        (if 2 * elems.length < 4 then 4 else 2 * elems.length) else cap)
      (elems ++ [.vstr s0]) (by simp at hf ⊢; omega)
    refine ⟨ncap, ?_⟩
    simp only [List.append_assoc, List.singleton_append, List.map_cons] at hrec ⊢
    exact hrec

/-- DecodeElement over the C7 document fills an initially empty
sequence with one value per sibling element, in document order,
whatever the starting capacity. -/
theorem c7_seq_all (x : XmlUtil) (ss : List String) (cap f : Nat)
    (hf : ss.length + 3 ≤ f) :
    ∃ ncap, DecodeElement x f
        (.vptrSome (.sliceT .stringT) (.vslice .stringT cap [])) none
        ⟨c7Doc ss, .eof⟩ =
      DR.res (.vptrSome (.sliceT .stringT)
          (.vslice .stringT ncap (ss.map .vstr))) ⟨[], .eof⟩ none := by
  cases ss with
  | nil =>
    obtain ⟨f1, rfl⟩ : ∃ k, f = k + 1 := ⟨f - 1, by omega⟩
    obtain ⟨ncap, hloop⟩ := c7_seq_loop x [] (f1 + 1) cap [] (by simp; omega)
    refine ⟨ncap, ?_⟩
    simp only [DecodeElement]
    rw [show unmarshal x (f1 + 1) (.vslice .stringT cap []) none ⟨c7Doc [], .eof⟩ =
        DR.res (.vslice .stringT cap []) ⟨[], .eof⟩ (some .eof) from by
      simp [c7Doc, unmarshal, findStartTok]]
    simp only [c7Doc, List.flatMap_nil] at hloop
    simp only [hloop]
    simp
  | cons s0 ss1 =>
    obtain ⟨f3, rfl⟩ : ∃ k, f = k + 3 := ⟨f - 3, by simp at hf; omega⟩
    have hdoc : c7Doc (s0 :: ss1) =
        .tstart c7Name [] :: .tchar s0 :: .tend c7Name :: c7Doc ss1 := by
      simp [c7Doc]
    obtain ⟨ncap, hloop⟩ := c7_seq_loop x ss1 (f3 + 3)
      (if ([] : List GoVal).length ≥ cap then
        (if 2 * ([] : List GoVal).length < 4 then 4
         else 2 * ([] : List GoVal).length) else cap)
      ([] ++ [.vstr s0]) (by simp at hf ⊢; omega)
    refine ⟨ncap, ?_⟩
    simp only [DecodeElement, hdoc]
    rw [show f3 + 3 = (f3 + 1) + 2 from rfl, c7_seq_step]
    rw [show (f3 + 1) + 2 = f3 + 3 from rfl]
    simp only [hloop]
    simp

/-- Appending the empty string is the identity. -/
theorem str_append_empty (s : String) : s ++ "" = s := by
  cases s with
  | mk data => exact congrArg String.mk (List.append_nil data)

/-- String append is associative. -/
theorem str_append_assoc (a b c : String) : a ++ b ++ c = a ++ (b ++ c) := by
  cases a with
  | mk la =>
    cases b with
    | mk lb =>
      cases c with
      | mk lc => exact congrArg String.mk (List.append_assoc la lb lc)

/-- The leaf loop of unmarshal agrees with the specification-side
description: on balanced content it accumulates exactly the depth-zero
character data onto the accumulator, traverses nested markup without
error, and stops right after the balancing end tag. -/
theorem leafLoop_spec :
    ∀ (toks : List Tok) (term : DErr) (d : Nat) (acc : String),
      specLeafBalanced toks d = true →
      leafLoop toks term d acc =
        .ok (acc ++ specLeafText toks d, ⟨specLeafRest toks d, term⟩) := by
  intro toks
  induction toks with
  | nil => intro term d acc h; simp [specLeafBalanced] at h
  | cons t rest ih =>
    intro term d acc h
    cases t with
    | tstart nm attrs =>
      simp only [specLeafBalanced] at h
      simp [leafLoop, specLeafText, specLeafRest, ih _ _ _ h]
    | tchar s =>
      simp only [specLeafBalanced] at h
      by_cases hd : d = 0
      · subst hd
        simp [leafLoop, specLeafText, specLeafRest, ih _ _ _ h, str_append_assoc]
      · simp [leafLoop, specLeafText, specLeafRest, hd, ih _ _ _ h, str_empty_append]
    | tend nm =>
      cases d with
      | zero =>
        simp only [specLeafBalanced] at h
        simp [leafLoop, specLeafText, specLeafRest, str_append_empty]
      | succ k =>
        simp only [specLeafBalanced] at h
        have h2 : specLeafBalanced rest k = true := by simpa using h
        simp [leafLoop, specLeafText, specLeafRest, ih _ _ _ h2]

/-- C8: a leaf destination with balanced element content decodes by
applying copyValue to exactly the depth-zero character data
(specLeafText); nested start and end tags are traversed purely for
depth tracking, raise no error and contribute no text, and the stream
resumes right after the balancing end tag (specLeafRest).  On a
successful coercion the destination holds the coerced value; on a
failing coercion the destination is left unchanged — and, because the
source discards the copyValue result in this branch, the call returns
no error in either case. -/
theorem decode_leaf_depth_zero_text (x : XmlUtil) (f : Nat) (v : GoVal)
    (st : StartTag) (s : Stream) (hleaf : leafKind v = true)
    (hbal : specLeafBalanced s.toks 0 = true) :
    unmarshal x (f + 1) v (some st) s =
      match copyValue v (specLeafText s.toks 0) with
      | .ok v1 => .res v1 ⟨specLeafRest s.toks 0, s.term⟩ none
      | .error _ => .res v ⟨specLeafRest s.toks 0, s.term⟩ none := by
  obtain ⟨toks, term⟩ := s
  have hl := leafLoop_spec toks term 0 "" hbal
  rw [str_empty_append] at hl
  cases v <;> simp only [leafKind, Bool.false_eq_true] at hleaf <;>
    (simp only [unmarshal, hl]
     cases hcv : copyValue _ (specLeafText toks 0) <;> simp [hcv])

/-- C8 witness: the leaf theorem applied to a string leaf whose element
holds text split around one nested child element. -/
theorem decode_leaf_depth_zero_witness :
    leafKind (.vstr "") = true ∧ specLeafBalanced c8Toks 0 = true ∧
    unmarshal NewXmlUtil 3 (.vstr "") (some (⟨"", "L"⟩, [])) ⟨c8Toks, .eof⟩ =
      match copyValue (.vstr "") (specLeafText c8Toks 0) with
      | .ok v1 => DR.res v1 ⟨specLeafRest c8Toks 0, .eof⟩ none
      | .error _ => DR.res (.vstr "") ⟨specLeafRest c8Toks 0, .eof⟩ none :=
  ⟨rfl, rfl, decode_leaf_depth_zero_text NewXmlUtil 2 (.vstr "")
    (⟨"", "L"⟩, []) ⟨c8Toks, .eof⟩ rfl rfl⟩

/-- C7: decoding into a sequence slot grows the backing storage to
double the current length (minimum four) when appending at capacity,
decodes the element into the new last slot, and rolls the length (not
the capacity) back on failure (first conjunct, an exact
characterization of one sequence step); decoding N sibling elements
into an initially empty sequence destination yields the N values in
document order regardless of the pre-existing capacity (second
conjunct). -/
theorem decode_sequence_growth_and_document_order :
    (∀ (x : XmlUtil) (f : Nat) (ety : GoType) (cap : Nat)
       (elems : List GoVal) (st : StartTag) (s : Stream),
       unmarshal x (f + 1) (.vslice ety cap elems) (some st) s =
         match unmarshal x f (zeroVal ety) (some st) s with
         | .noFuel => .noFuel
         | .res v1 s2 none =>
           .res (.vslice ety (if elems.length ≥ cap then
               (if 2 * elems.length < 4 then 4 else 2 * elems.length) else cap)
             (elems ++ [v1])) s2 none
         | .res _ s2 (some e) =>
           .res (.vslice ety (if elems.length ≥ cap then
               (if 2 * elems.length < 4 then 4 else 2 * elems.length) else cap)
             elems) s2 (some e)) ∧
    (∀ (x : XmlUtil) (ss : List String) (cap f : Nat), ss.length + 3 ≤ f →
       ∃ ncap, DecodeElement x f
           (.vptrSome (.sliceT .stringT) (.vslice .stringT cap [])) none
           ⟨c7Doc ss, .eof⟩ =
         DR.res (.vptrSome (.sliceT .stringT)
             (.vslice .stringT ncap (ss.map .vstr))) ⟨[], .eof⟩ none) :=
  ⟨unmarshal_slice_step, c7_seq_all⟩

/-- C7 witness: the sequence theorem applied to a two-element document
with pre-existing capacity seven and fuel five. -/
theorem decode_sequence_growth_witness :
    (List.length ["a", "b"] + 3 ≤ 5) ∧
    (∃ ncap, DecodeElement NewXmlUtil 5
        (.vptrSome (.sliceT .stringT) (.vslice .stringT 7 [])) none
        ⟨c7Doc ["a", "b"], .eof⟩ =
      DR.res (.vptrSome (.sliceT .stringT)
          (.vslice .stringT ncap (["a", "b"].map .vstr))) ⟨[], .eof⟩ none) :=
  ⟨by decide,
   decode_sequence_growth_and_document_order.2 NewXmlUtil ["a", "b"] 7 5 (by decide)⟩

/-- C9: attribute and element processing are disjoint on the fAttr
flag, on both sides of the codec.  During decode, the field matched for
an incoming attribute always has fAttr set and the field matched for an
incoming child element never has it, even when qualified names
coincide (the element matcher also never selects an attribute field
through the fInterface wildcard).  During encode, the attribute loop
steps over every field without fAttr and the child-element loop steps
over every field with it. -/
theorem attr_element_disjoint :
    (∀ (fields : List FieldInfo) (an : XName) (fi : FieldInfo),
       attrFieldMatch fields an = some fi → fi.flags.attr = true) ∧
    (∀ (fields : List FieldInfo) (tn : XName) (fi : FieldInfo),
       elemFieldMatch fields tn = some fi → fi.flags.attr = false) ∧
    (∀ (x : XmlUtil) (v : GoVal) (fi : FieldInfo) (rest : List FieldInfo)
       (seen : List XName) (buf : String), fi.flags.attr = false →
       marshalAttrFields x v (fi :: rest) seen buf =
         marshalAttrFields x v rest seen buf) ∧
    (∀ (x : XmlUtil) (mv : GoVal → Option XName → String → ER) (v : GoVal)
       (fi : FieldInfo) (rest : List FieldInfo) (buf : String),
       fi.flags.attr = true →
       marshalFields x mv v (fi :: rest) buf = marshalFields x mv v rest buf) := by
  refine ⟨?_, ?_, ?_, ?_⟩
  · intro fields an fi h
    have hp := List.find?_some h
    simp only [Bool.and_eq_true] at hp
    exact hp.1
  · intro fields tn fi h
    have hp := List.find?_some h
    simp only [Bool.and_eq_true, Bool.not_eq_eq_eq_not, Bool.not_true] at hp
    simpa using hp.1
  · intro x v fi rest seen buf h
    simp [marshalAttrFields, h]
  · intro x mv v fi rest buf h
    simp [marshalFields, h]

/-- C9 witness: the disjointness theorem applied to a field list whose
attribute field and element field share the qualified name N. -/
theorem attr_element_disjoint_witness :
    (FieldInfo.mk 0 ⟨"", "N"⟩ ⟨true, false, false⟩).flags.attr = true ∧
    (FieldInfo.mk 1 ⟨"", "N"⟩ ⟨false, false, false⟩).flags.attr = false ∧
    marshalAttrFields NewXmlUtil (.vstruct c3Ty [.vifaceNil, .vint 0])
      [FieldInfo.mk 1 ⟨"", "N"⟩ ⟨false, false, false⟩] [] "" =
      marshalAttrFields NewXmlUtil (.vstruct c3Ty [.vifaceNil, .vint 0]) [] [] "" ∧
    marshalFields NewXmlUtil (fun w o b => marshalValue NewXmlUtil 2 w o b)
      (.vstruct c3Ty [.vifaceNil, .vint 0])
      [FieldInfo.mk 0 ⟨"", "N"⟩ ⟨true, false, false⟩] "" =
      marshalFields NewXmlUtil (fun w o b => marshalValue NewXmlUtil 2 w o b)
        (.vstruct c3Ty [.vifaceNil, .vint 0]) [] "" :=
  ⟨attr_element_disjoint.1
     [.mk 0 ⟨"", "N"⟩ ⟨true, false, false⟩, .mk 1 ⟨"", "N"⟩ ⟨false, false, false⟩]
     ⟨"", "N"⟩ (.mk 0 ⟨"", "N"⟩ ⟨true, false, false⟩) rfl,
   attr_element_disjoint.2.1
     [.mk 0 ⟨"", "N"⟩ ⟨true, false, false⟩, .mk 1 ⟨"", "N"⟩ ⟨false, false, false⟩]
     ⟨"", "N"⟩ (.mk 1 ⟨"", "N"⟩ ⟨false, false, false⟩) rfl,
   attr_element_disjoint.2.2.1 NewXmlUtil (.vstruct c3Ty [.vifaceNil, .vint 0])
     (.mk 1 ⟨"", "N"⟩ ⟨false, false, false⟩) [] [] "" rfl,
   attr_element_disjoint.2.2.2 NewXmlUtil
     (fun w o b => marshalValue NewXmlUtil 2 w o b)
     (.vstruct c3Ty [.vifaceNil, .vint 0])
     (.mk 0 ⟨"", "N"⟩ ⟨true, false, false⟩) [] "" rfl⟩

/-- C10: Encode hands the whole buffered output to the sink exactly
once at the end of the call, for erroring and for successful calls
alike (first two conjuncts), so a failed encode is not atomic: the
concrete S10 value returns an unsupported-type error together with the
non-well-formed prefix written before the failure point (third
conjunct). -/
theorem encode_flushes_partial_output_on_error :
    (∀ (x : XmlUtil) (f : Nat) (v : GoVal) (buf : String) (t : GoType),
       marshalValue x f v none "" = ER.res buf (.errU t) →
       Encode x f v = ER.res buf (.errU t)) ∧
    (∀ (x : XmlUtil) (f : Nat) (v : GoVal) (buf : String),
       marshalValue x f v none "" = ER.res buf .ok →
       Encode x f v = ER.res buf .ok) ∧
    Encode NewXmlUtil 6 c10Val = ER.res "<S10><A>1</A><B>" (.errU .mapT) := by
  refine ⟨?_, ?_, rfl⟩
  · intro x f v buf t h
    simp [Encode, h]
  · intro x f v buf h
    simp [Encode, h]

/-- C10 witness: the flush theorem applied to the S10 value whose
marshalling stops at the unsupported map field. -/
theorem encode_flushes_partial_output_witness :
    Encode NewXmlUtil 6 c10Val = ER.res "<S10><A>1</A><B>" (.errU .mapT) :=
  encode_flushes_partial_output_on_error.1 NewXmlUtil 6 c10Val
    "<S10><A>1</A><B>" .mapT rfl

/-- C6 witness: the amended theorem applied at concrete inputs,
including the nil-interface omitempty skip and the nil-interface panic
field of the S6 fixture. -/
theorem encode_nil_emits_nothing_witness :
    marshalValue NewXmlUtil 3 (.vptrNil .intT) none "" = ER.res "" .ok ∧
    marshalValue NewXmlUtil 3 .vifaceNil none "" = ER.res "" .ok ∧
    marshalFields NewXmlUtil (fun w o b => marshalValue NewXmlUtil 2 w o b) c6Val
      [{ index := 0, name := ⟨"", "A"⟩, flags := ⟨false, true, true⟩ }] "xy" =
      ER.res "xy" .ok ∧
    marshalFields NewXmlUtil (fun w o b => marshalValue NewXmlUtil 2 w o b) c6Val
      [{ index := 0, name := ⟨"", "A"⟩, flags := ⟨false, true, false⟩ }] "" =
      ER.res "" (.panicked "reflect: call of reflect.Value.Type on zero Value") :=
  ⟨encode_nil_emits_nothing_except_nil_iface_field.1 NewXmlUtil 2 .intT none "",
   encode_nil_emits_nothing_except_nil_iface_field.2.1 NewXmlUtil 2 none "",
   (encode_nil_emits_nothing_except_nil_iface_field.2.2.2.1 NewXmlUtil
     (fun w o b => marshalValue NewXmlUtil 2 w o b) c6Val
     { index := 0, name := ⟨"", "A"⟩, flags := ⟨false, true, true⟩ } [] "xy"
     rfl rfl).trans rfl,
   encode_nil_emits_nothing_except_nil_iface_field.2.2.2.2 NewXmlUtil
     (fun w o b => marshalValue NewXmlUtil 2 w o b) c6Val
     { index := 0, name := ⟨"", "A"⟩, flags := ⟨false, true, false⟩ } [] ""
     rfl rfl rfl rfl⟩

end Xmlutil
